import Mathlib

/-!
Shallow embedding of the taxonomy-merge engine of `gg2/backbone_taxonomy.py`
(greengenes2).  Python strings are modelled as Lean `String`, operating on the
underlying `List Char`; pandas tables are lists of rows; functions that can
`raise` return `Except Unit`.  All definitions are executable and reduce by
kernel computation, so concrete scenarios are settled by `rfl`/`decide`.
-/

namespace GG2

/-- Whitespace characters removed by Python `str.strip()`. -/
def isPySpace (c : Char) : Bool :=
  c = ' ' || c = '\t' || c = '\n' || c = '\r' || c = '\x0b' || c = '\x0c'

/-- Python `str.strip()` on the character list. -/
def pyStripChars (l : List Char) : List Char :=
  ((l.dropWhile isPySpace).reverse.dropWhile isPySpace).reverse

/-- Python `str.strip()`. -/
def pyStrip (s : String) : String := ⟨pyStripChars s.data⟩

/-- Python `str.split(sep)` for a one-character separator: `''.split(';') == ['']`,
separators at the ends produce empty fields. -/
def pySplitChars (sep : Char) : List Char → List (List Char)
  | [] => [[]]
  | c :: cs =>
    match pySplitChars sep cs with
    | [] => [[]]
    | p :: ps => if c = sep then [] :: p :: ps else (c :: p) :: ps

/-- Python `str.split(sep)`. -/
def pySplit (sep : Char) (s : String) : List String :=
  (pySplitChars sep s.data).map (fun l => ⟨l⟩)

/-- Python `pat in s` (substring containment; the empty pattern is contained
in every string). -/
def pyContainsChars (pat : List Char) : List Char → Bool
  | [] => pat.isEmpty
  | c :: cs => pat.isPrefixOf (c :: cs) || pyContainsChars pat cs

/-- Python `pat in s` on `String`. -/
def pyContains (pat s : String) : Bool := pyContainsChars pat.data s.data

/-- Python `str.replace`: leftmost non-overlapping occurrences, scanning
resumes after the replaced slice.  Fuel-indexed so the recursion is structural
(any fuel works; the branch consuming the pattern keeps at least the fuel it
needs because the pattern also consumes input characters). -/
def pyReplaceFuel (pat rep : List Char) : Nat → List Char → List Char
  | _, [] => []
  | 0, s => s
  | fuel + 1, c :: cs =>
    if pat ≠ [] ∧ pat.isPrefixOf (c :: cs) then
      rep ++ pyReplaceFuel pat rep fuel (List.drop (pat.length - 1) cs)
    else
      c :: pyReplaceFuel pat rep fuel cs

/-- Python `s.replace(pat, rep)`. -/
def pyReplace (pat rep s : String) : String :=
  ⟨pyReplaceFuel pat.data rep.data s.data.length s.data⟩

/-- `';'.join(parts)`. -/
def joinSemi : List String → String
  | [] => ""
  | [x] => x
  | x :: y :: rest => x ++ ";" ++ joinSemi (y :: rest)

/-- `s.count(';')`: number of rank separators in a lineage string. -/
def sepCount (s : String) : Nat := s.data.count ';'

/-- The seven ranks, `LEVELS` in the source; columns are addressed by index
0 (domain) through 6 (species). -/
def LEVELS : List String :=
  ["domain", "phylum", "class", "order", "family", "genus", "species"]

/-- `splitter` inside `parse_lineage`: field `idx` of the ';'-split lineage,
whitespace-trimmed, or `""` when the lineage has fewer fields. -/
def splitter (idx : Nat) (x : String) : String :=
  let parts := pySplit ';' x
  if idx ≥ parts.length then "" else pyStrip (parts.getD idx "")

/-- `parse_lineage` for a single record: the seven rank columns produced from
the raw lineage string. -/
def parse_lineage (lineage : String) : List String :=
  (List.range 7).map (fun idx => splitter idx lineage)
/-! ## Rewrite engine (`adjust_ltp`) -/

/-- A rewrite rule `{'old': ..., 'new': ...}` applied to full lineage strings. -/
structure Rule where
  old : String
  new : String
deriving DecidableEq, Repr

/-- The `renamer` closure of `adjust_ltp`: substring substitution of one rule
over one lineage string (`if entry['old'] in lin: lin.replace(old, new)`). -/
def renamer (entry : Rule) (lin : String) : String :=
  if pyContains entry.old lin then pyReplace entry.old entry.new lin else lin

/-- One rule list applied to a single lineage string, rules in list order. -/
def apply_rules (rules : List Rule) (lin : String) : String :=
  rules.foldl (fun l entry => renamer entry l) lin

/-- The bulk-rename loop of `adjust_ltp`: for each rule in order, rewrite every
lineage of the table (`ltp_tax['lineage'].apply(renamer)`). -/
def bulk_rename (rules : List Rule) (lineages : List String) : List String :=
  rules.foldl (fun tbl entry => tbl.map (renamer entry)) lineages

/-- The manually curated `LTP_RENAMES` rule list, in source order. -/
def LTP_RENAMES : List Rule := [
    Rule.mk "Actinobacteria;Micrococcales" "Actinobacteria;Actinomycetales",
    Rule.mk "Actinobacteria" "Actinomycetia",
    Rule.mk "Actinomycetota" "Actinobacteriota",
    Rule.mk "Intrasporangiaceae" "Dermatophilaceae",
    Rule.mk "ThermodesulfobacteriotaThermodesulfobacteria" "Thermodesulfobacteriota;Thermodesulfobacteria",
    Rule.mk "Nannocystale;Nannocystaceae" "Nannocystales;Nannocystaceae",
    Rule.mk "Bdellovibrionota;Bdellovibrionota" "Bdellovibrionota",
    Rule.mk "ActinomycetotaAcidimicrobiia" "Actinomycetota;Acidimicrobiia",
    Rule.mk "Actinomycetotaa" "Actinomycetota",
    Rule.mk "ThermodesulfobacteriotaThermodesulfobacteria" "Thermodesulfobacteriota;Thermodesulfobacteria",
    Rule.mk "Bacillota" "Firmicutes",
    Rule.mk "Pseudomonadota" "Proteobacteria",
    Rule.mk "Armatimonadetes" "Armatimonadota",
    Rule.mk "Verrucomicrobiotales" "Verrucomicrobiales",
    Rule.mk "Kiritimatiellota" "Verrucomicrobiota",
    Rule.mk "Lentisphaerota" "Verrucomicrobiota",
    Rule.mk "Hydrogenophilalia" "Gammaproteobacteria",
    Rule.mk "Thermodesulfobacteriota" "Desulfobacterota",
    Rule.mk "Betaproteobacteria" "Gammaproteobacteria",
    Rule.mk "Natrialbales" "Halobacteriales",
    Rule.mk "Desulfurococcales" "Sulfolobales",
    Rule.mk "Thermoprotei" "Thermoproteia",
    Rule.mk "Crenarchaeota" "Thermoproteota",
    Rule.mk "Euryarchaeota;Halobacteria" "Halobacteriota;Halobacteria",
    Rule.mk "Euryarchaeota;Methanomicrobia;Methanosarcinales" "Halobacteriota;Methanosarcinia;Methanosarcinales",
    Rule.mk "Euryarchaeota;Methanomicrobia" "Halobacteriota;Methanomicrobia",
    Rule.mk "Euryarchaeota;Thermoplasmata" "Thermoplasmatota;Thermoplasmata",
    Rule.mk "Euryarchaeota;Archaeoglobi" "Halobacteriota;Archaeoglobi",
    Rule.mk "Nostocales" "Cyanobacteriales",
    Rule.mk "Schaalia;Schaalia" "Pauljensenia;Pauljensenia",
    Rule.mk "Dermacoccaceae" "Dermatophilaceae",
    Rule.mk "Promicromonosporaceae;Cellulosimicrobium" "Cellulomonadaceae;Cellulosimicrobium",
    Rule.mk "Alteromonadales;Alteromonadaceae" "Enterobacterales;Alteromonadaceae",
    Rule.mk "Chlorobiota;Chlorobia" "Bacteroidota;Chlorobia",
    Rule.mk "Chloroflexiota;Chloroflexia" "Chloroflexota;Chloroflexia",
    Rule.mk "Ignavibacteriota;Ignavibacteria" "Bacteroidota;Ignavibacteria",
    Rule.mk "Nautiliia;Nautiliales" "Campylobacteria;Nautiliales",
    Rule.mk "Gammaproteobacteria;Thiotrichales" "Gammaproteobacteria;Beggiatoales",
    Rule.mk "Chromatiales;Ectothiorhodospiraceae;Alkalilimnicola" "Nitrococcales;Halorhodospiraceae;Alkalilimnicola",
    Rule.mk "Chromatiales;Ectothiorhodospiraceae;Halorhodospira" "Nitrococcales;Halorhodospiraceae;Halorhodospira",
    Rule.mk "Chromatiales;Ectothiorhodospiraceae;Thiorhodospira" "Ectothiorhodospirales;Ectothiorhodospiraceae;Thiorhodospira",
    Rule.mk "Chromatiales;Ectothiorhodospiraceae;Spiribacter" "Nitrococcales;Nitrococcaceae;Spiribacter",
    Rule.mk "Chromatiales;Ectothiorhodospiraceae;Thioalkalivibrio" "Ectothiorhodospirales;Thioalkalivibrionaceae;Thioalkalivibrio",
    Rule.mk "Chromatiales;Ectothiorhodospiraceae;Arhodomonas" "Nitrococcales;Nitrococcaceae;Arhodomonas",
    Rule.mk "Chromatiales;Ectothiorhodospiraceae;Ectothiorhodospira" "Ectothiorhodospirales;Ectothiorhodospiraceae;Ectothiorhodospira",
    Rule.mk "Chromatiales;Ectothiorhodospiraceae;Acidihalobacter" "Ectothiorhodospirales;Acidihalobacteraceae;Acidihalobacter",
    Rule.mk "Chromatiales;Ectothiorhodospiraceae;Acidihalobacter" "Ectothiorhodospirales;Acidihalobacteraceae;Acidihalobacter",
    Rule.mk "Chromatiales;Ectothiorhodospiraceae;Halofilum" "XJ16;Halofilaceae;Halofilum",
    Rule.mk "Chromatiales;Ectothiorhodospiraceae;Oceanococcus" "Nevskiales;Oceanococcaceae;Oceanococcus",
    Rule.mk "Chromatiales;Ectothiorhodospiraceae;Thioalbus" "DSM-26407;DSM-26407;Thioalbus",
    Rule.mk "Chromatiales;Ectothiorhodospiraceae;g__Inmirania" "DSM-100275;DSM-100275;Inmirania",
    Rule.mk "Chromatiales;Ectothiorhodospiraceae;Thiogranum" "DSM-19610;DSM-19610;Thiogranum",
    Rule.mk "Chromatiales;Ectothiorhodospiraceae;Thiohalomonas" "Thiohalomonadales;Thiohalomonadaceae;Thiohalomonas",
    Rule.mk "Chromatiales;Ectothiorhodospiraceae;Aquisalimonas" "Nitrococcales;Aquisalimonadaceae;Aquisalimonas",
    Rule.mk "Chromatiales;Ectothiorhodospiraceae;Thiohalospira" "Thiohalospirales;Thiohalospiraceae;Thiohalospira",
    Rule.mk "Bacteria;Pseudomonadota;Gammaproteobacteria;Chromatiales;Ectothiorhodospiraceae;Alkalispirillum;Alkalispirillum mobile" "Bacteria;Proteobacteria;Gammaproteobacteria;Nitrococcales;Halorhodospiraceae;Alkalilimnicola;Alkalilimnicola mobilis",
    Rule.mk "Hyphomicrobiales;Hyphomicrobiaceae;Hyphomicrobium" "Rhizobiales;Hyphomicrobiaceae;Hyphomicrobium",
    Rule.mk "Hyphomicrobiales;Hyphomicrobiaceae;Rhodomicrobium" "Rhizobiales;Rhodomicrobiaceae;Rhodomicrobium",
    Rule.mk "Hyphomicrobiales;Hyphomicrobiaceae;Methyloceanibacter" "Rhizobiales;Methyloligellaceae;Methyloceanibacter",
    Rule.mk "Hyphomicrobiales;Hyphomicrobiaceae;Prosthecomicrobium" "Rhizobiales;Ancalomicrobiaceae;Prosthecomicrobium",
    Rule.mk "Hyphomicrobiales;Hyphomicrobiaceae;Methyloligella" "Rhizobiales;Methyloligellaceae;Methyloceanibacter",
    Rule.mk "Hyphomicrobiales;Hyphomicrobiaceae;Methyloceanibacter" "Rhizobiales;Methyloligellaceae;Methyloceanibacter",
    Rule.mk "Hyphomicrobiales;Hyphomicrobiaceae;Methyloceanibacter" "Rhizobiales;Methyloligellaceae;Methyloceanibacter",
    Rule.mk "Hyphomicrobiales;Hyphomicrobiaceae;Rhodoplanes" "Rhizobiales;Xanthobacteraceae;Rhodoplanes",
    Rule.mk "Hyphomicrobiales;Hyphomicrobiaceae;Dichotomicrobium" "Rhizobiales;Rhodomicrobiaceae;Dichotomicrobium",
    Rule.mk "Hyphomicrobiales;Hyphomicrobiaceae;Caenibius" "Sphingomonadales;Sphingomonadaceae;Caenibius",
    Rule.mk "Hyphomicrobiales;Hyphomicrobiaceae;Aquabacter" "Rhizobiales;Xanthobacteraceae;Aquabacter",
    Rule.mk "Hyphomicrobiales;Hyphomicrobiaceae;Angulomicrobium" "Rhizobiales;Xanthobacteraceae;Angulomicrobium",
    Rule.mk "Hyphomicrobiales;Hyphomicrobiaceae;Prosthecomicrobium" "Rhizobiales;Kaistiaceae;Prosthecomicrobium",
    Rule.mk "Hyphomicrobiales;Hyphomicrobiaceae;Limoniibacter" "Rhizobiales;Rhizobiaceae;Limoniibacter",
    Rule.mk "Hyphomicrobiales;Hyphomicrobiaceae;Filomicrobium" "Rhizobiales;Hyphomicrobiaceae;Filomicrobium",
    Rule.mk "Rhodospirillales;Kiloniellaceae;Kiloniella" "Kiloniellales;Kiloniellaceae;Kiloniella",
    Rule.mk "Rhodospirillales;Kiloniellaceae;Aestuariispira" "UBA8366;GCA-2696645;Aestuariispira",
    Rule.mk "Rhodospirillales;Rhodospirillaceae;Denitrobaculum" "Kiloniellales;Kiloniellaceae;Denitrobaculum",
    Rule.mk "Rhodospirillales;Kiloniellaceae;Curvivirga" "UBA8366;GCA-2696645;Curvivirga",
    Rule.mk "Hyphomicrobiales;Rhodovibrionaceae;Pelagibius" "Kiloniellales;Kiloniellaceae;Pelagibius",
    Rule.mk "Hyphomicrobiales;Parvibaculaceae;Parvibaculum" "Parvibaculales;Parvibaculaceae;Parvibaculum",
    Rule.mk "Hyphomicrobiales;Parvibaculaceae;Tepidicaulis" "Parvibaculales;Parvibaculaceae;Tepidicaulis",
    Rule.mk "Hyphomicrobiales;Parvibaculaceae;Rhodoligotrophos" "Rhizobiales;Im1;Rhodoligotrophos",
    Rule.mk "Hyphomicrobiales;Parvibaculaceae;Pyruvatibacter" "Parvibaculales;CGMCC-115125;Pyruvatibacter",
    Rule.mk "Hyphomicrobiales;Parvibaculaceae;Kaustia" "Rhizobiales;Im1;Kaustia",
    Rule.mk "Hyphomicrobiales;Parvibaculaceae;Anderseniella" "Rhizobiales;Aestuariivirgaceae;Anderseniella",
    Rule.mk "Hyphomicrobiales;Parvibaculaceae;Tepidicaulis" "Parvibaculales;Parvibaculaceae;Tepidicaulis",
    Rule.mk "Thiotrichales;Piscirickettsiaceae;Cycloclasticus" "Methylococcales;Cycloclasticaceae;Cycloclasticus",
    Rule.mk "Thiotrichales;Piscirickettsiaceae;Hydrogenovibrio" "Thiomicrospirales;Thiomicrospiraceae;Hydrogenovibrio",
    Rule.mk "Thiotrichales;Piscirickettsiaceae;Methylophaga" "Nitrosococcales;Methylophagaceae;Methylophaga",
    Rule.mk "Thiotrichales;Piscirickettsiaceae;Piscirickettsia" "Piscirickettsiales;Piscirickettsiaceae;Piscirickettsia",
    Rule.mk "Thiotrichales;Piscirickettsiaceae;Sulfurivirga" "Thiomicrospirales;Thiomicrospiraceae;Sulfurivirga",
    Rule.mk "Thiotrichales;Piscirickettsiaceae;Thiomicrorhabdus" "Thiomicrospirales;Thiomicrospiraceae;Thiomicrorhabdus",
    Rule.mk "Thiotrichales;Piscirickettsiaceae;Thiomicrospira" "Thiomicrospirales;Thiomicrospiraceae;Thiomicrospira",
    Rule.mk "Selenomonadales;Sporomusaceae;Acetonema" "Sporomusales_A;Acetonemaceae;Acetonema",
    Rule.mk "Selenomonadales;Sporomusaceae;Anaeromusa" "Anaeromusales;Anaeromusaceae;Anaeromusa",
    Rule.mk "Selenomonadales;Sporomusaceae;Anaerosporomusa" "Sporomusales_A;Acetonemaceae;Anaerosporomusa",
    Rule.mk "Selenomonadales;Sporomusaceae;Dendrosporobacter" "DSM-1736;Dendrosporobacteraceae;Dendrosporobacter",
    Rule.mk "Selenomonadales;Sporomusaceae;Methylomusa" "Sporomusales;Sporomusaceae;Methylomusa",
    Rule.mk "Selenomonadales;Sporomusaceae;Pelosinu" "Propionisporales;Propionisporaceae;Pelosinus",
    Rule.mk "Selenomonadales;Sporomusaceae;Propionispora" "Propionisporales;Propionisporaceae;Propionispora",
    Rule.mk "Selenomonadales;Sporomusaceae;Sporolituus" "Sporomusales;Thermosinaceae;Sporolituus",
    Rule.mk "Selenomonadales;Sporomusaceae;Sporomusa" "Sporomusales;Sporomusaceae;Sporomusa",
    Rule.mk "Selenomonadales;Sporomusaceae;Thermosinus" "Sporomusales;Thermosinaceae;Thermosinus",
    Rule.mk "Chromatiales;Thioalkalibacteraceae;Guyparkeria;Guyparkeria hydrothermalis" "Halothiobacillales;Halothiobacillaceae;Guyparkeria;Guyparkeria hydrothermalis",
    Rule.mk "Halobacteriales;Halobacteriaceae;Haloarchaeobius" "Halobacteriales;Natrialbaceae;Haloarchaeobius",
    Rule.mk "Verrucomicrobiotaceae;Luteolibacter" "Akkermansiaceae;Luteolibacter",
    Rule.mk "Rhodospirillaceae;Magnetospirillum" "Magnetospirillaceae;Magnetospirillum",
    Rule.mk "Oceanospirillaceae;Oleispira" "DSM-6294;Oleispira",
    Rule.mk "Rhodospirillaceae;Phaeospirillum" "Magnetospirillaceae;Phaeospirillum",
    Rule.mk "Hyphomicrobiales;Phyllobacteriaceae;Phyllobacterium" "Rhizobiales_A;Rhizobiaceae_A;Phyllobacterium",
    Rule.mk "Hyphomicrobiales;Phyllobacteriaceae" "Rhizobiales;Rhizobiaceae",
    Rule.mk "Hyphomicrobiales;Brucellaceae;Brucella" "Rhizobiales_A;Rhizobiaceae_A;Brucella",
    Rule.mk "Chromatiales;Chromatiaceae;Rheinheimera" "Enterobacterales;Alteromonadaceae;Rheinheimera",
    Rule.mk "Actinomycetota;;Thermoleophilia" "Actinomycetota;Thermoleophilia",
    Rule.mk "Acidimicrobiales_incertae_sedis;Aciditerrimonas" "Acidimicrobiaceae;Aciditerrimonas",
    Rule.mk "Prolixibacteraceae;Aquipluma." "Prolixibacteraceae;Aquipluma",
    Rule.mk "Pseudomonadales_incertae_sedis;Spartinivicinus" "Pseudomonadales;Zooshikellaceae",
    Rule.mk "Burkholderiales_incertae_sedis;Inhella" "Burkholderiaceae;Inhella"]


/-- First-occurrence deduplication; models collecting candidate rewrites into
the Python set `auto_rename` (one copy of each rule, order abstracted). -/
def uniqueRulesAux : List Rule → List Rule → List Rule
  | [], _ => []
  | r :: rs, seen =>
    if r ∈ seen then uniqueRulesAux rs seen
    else r :: uniqueRulesAux rs (r :: seen)

/-- Deduplicated candidate rules. -/
def uniqueRules (l : List Rule) : List Rule := uniqueRulesAux l []

/-- Insert a rule into a list sorted by descending `sepCount` of `old`. -/
def insertDesc (r : Rule) : List Rule → List Rule
  | [] => [r]
  | x :: xs =>
    if sepCount x.old ≤ sepCount r.old then r :: x :: xs else x :: insertDesc r xs

/-- `sorted(auto_rename, key=length, reverse=True)`: descending by the number
of rank separators in the `old` string. -/
def sortDesc : List Rule → List Rule
  | [] => []
  | x :: xs => insertDesc x (sortDesc xs)

/-- The full rule list `adjust_ltp` applies: deduplicated auto-derived rules,
sorted most-specific-first, followed by the curated `LTP_RENAMES`
(`for entry in auto_rename + LTP_RENAMES`). -/
def adjust_rules (cands : List Rule) : List Rule :=
  sortDesc (uniqueRules cands) ++ LTP_RENAMES

/-! ## Auto-derivation of rewrite candidates (`adjust_ltp`, per lineage) -/

/-- `current += ';'` / `gtdb += ';'` anchoring for ranks above species. -/
def anchored (lvl : Nat) (s : String) : String :=
  if lvl < 6 then s ++ ";" else s

/-- One step of the candidate-derivation loop body: look level `lvl`, name
`name` up in the NCBI→GTDB index; on a hit, compare the anchored rank-level
path with the anchored GTDB path; on the Bacteria→Archaea sanity check,
`raise ValueError()`. -/
def emit_at (lookup : Nat → String → Option String) (parts : List String)
    (lvl : Nat) (name : String) : Except Unit (Option Rule) :=
  match lookup lvl name with
  | none => Except.ok none
  | some g =>
    let current := anchored lvl (joinSemi (parts.take (lvl + 1)))
    let g2 := anchored lvl g
    if g2 = current then Except.ok none
    else if pyContains "Bacteria" current && pyContains "Archaea" g2 then
      Except.error ()
    else Except.ok (some ⟨current, g2⟩)

/-- The `for lvl, name in list(enumerate(parts))[::-1]` loop, accumulating
emitted candidate rules and propagating the fatal error. -/
def auto_candidates_go (lookup : Nat → String → Option String)
    (parts : List String) : List (Nat × String) → List Rule → Except Unit (List Rule)
  | [], acc => Except.ok acc
  | p :: ps, acc =>
    match emit_at lookup parts p.1 p.2 with
    | Except.error e => Except.error e
    | Except.ok none => auto_candidates_go lookup parts ps acc
    | Except.ok (some r) => auto_candidates_go lookup parts ps (acc ++ [r])

/-- Candidate rewrite rules auto-derived from one lineage, species → domain. -/
def auto_candidates (lookup : Nat → String → Option String)
    (lineage : String) : Except Unit (List Rule) :=
  let parts := pySplit ';' lineage
  auto_candidates_go lookup parts parts.enum.reverse []


/-! ## Lemmas: rule application -/

theorem apply_rules_cons (r : Rule) (rs : List Rule) (lin : String) :
    apply_rules (r :: rs) lin = apply_rules rs (renamer r lin) := rfl

/-- The rule-major loop of `adjust_ltp` rewrites each lineage exactly as the
per-string fold over the same ordered rule list. -/
theorem bulk_rename_eq_map (rules : List Rule) (lins : List String) :
    bulk_rename rules lins = lins.map (apply_rules rules) := by
  induction rules generalizing lins with
  | nil =>
    show lins = List.map (apply_rules []) lins
    exact (List.map_id lins).symm
  | cons r rs ih =>
    show bulk_rename rs (lins.map (renamer r)) = _
    rw [ih (lins.map (renamer r)), List.map_map]
    rfl

theorem insertDesc_perm (r : Rule) (l : List Rule) : (insertDesc r l).Perm (r :: l) := by
  induction l with
  | nil => simp [insertDesc]
  | cons x xs ih =>
    by_cases h : sepCount x.old ≤ sepCount r.old
    · simp [insertDesc, h]
    · simp only [insertDesc, if_neg h]
      exact (ih.cons x).trans (List.Perm.swap r x xs)

theorem mem_insertDesc {a r : Rule} {l : List Rule} :
    a ∈ insertDesc r l ↔ a = r ∨ a ∈ l := by
  simpa using (insertDesc_perm r l).mem_iff

theorem insertDesc_sorted (r : Rule) {l : List Rule}
    (h : List.Sorted (fun a b => sepCount b.old ≤ sepCount a.old) l) :
    List.Sorted (fun a b => sepCount b.old ≤ sepCount a.old) (insertDesc r l) := by
  induction l with
  | nil => simp [insertDesc]
  | cons x xs ih =>
    rcases List.sorted_cons.mp h with ⟨hx, hxs⟩
    by_cases hc : sepCount x.old ≤ sepCount r.old
    · rw [insertDesc, if_pos hc]
      refine List.sorted_cons.mpr ⟨?_, h⟩
      intro b hb
      rcases List.mem_cons.mp hb with rfl | hb
      · exact hc
      · exact le_trans (hx b hb) hc
    · rw [insertDesc, if_neg hc]
      refine List.sorted_cons.mpr ⟨?_, ih hxs⟩
      intro b hb
      rcases mem_insertDesc.mp hb with rfl | hb
      · exact Nat.le_of_lt (Nat.lt_of_not_le hc)
      · exact hx b hb

theorem sortDesc_perm (l : List Rule) : (sortDesc l).Perm l := by
  induction l with
  | nil => exact List.Perm.refl _
  | cons x xs ih => exact (insertDesc_perm x (sortDesc xs)).trans (ih.cons x)

theorem sortDesc_sorted (l : List Rule) :
    List.Sorted (fun a b => sepCount b.old ≤ sepCount a.old) (sortDesc l) := by
  induction l with
  | nil => simp [sortDesc]
  | cons x xs ih => exact insertDesc_sorted x ih

theorem mem_uniqueRulesAux {a : Rule} {l : List Rule} :
    ∀ {seen : List Rule}, a ∈ uniqueRulesAux l seen ↔ a ∈ l ∧ a ∉ seen := by
  induction l with
  | nil => intro seen; simp [uniqueRulesAux]
  | cons r rs ih =>
    intro seen
    by_cases h : r ∈ seen
    · rw [uniqueRulesAux, if_pos h, ih]
      constructor
      · rintro ⟨ha, hs⟩; exact ⟨List.mem_cons_of_mem r ha, hs⟩
      · rintro ⟨ha, hs⟩
        rcases List.mem_cons.mp ha with rfl | ha
        · exact absurd h hs
        · exact ⟨ha, hs⟩
    · rw [uniqueRulesAux, if_neg h]
      constructor
      · intro hm
        rcases List.mem_cons.mp hm with rfl | hm
        · exact ⟨List.mem_cons_self a rs, h⟩
        · rcases ih.mp hm with ⟨ha, hs⟩
          exact ⟨List.mem_cons_of_mem r ha,
                 fun hsa => hs (List.mem_cons_of_mem r hsa)⟩
      · rintro ⟨ha, hs⟩
        rcases List.mem_cons.mp ha with rfl | ha
        · exact List.mem_cons_self a _
        · by_cases har : a = r
          · subst har; exact List.mem_cons_self a _
          · exact List.mem_cons_of_mem r
              (ih.mpr ⟨ha, fun hsa => by
                rcases List.mem_cons.mp hsa with h' | h'
                · exact har h'
                · exact hs h'⟩)

theorem mem_uniqueRules {a : Rule} {l : List Rule} : a ∈ uniqueRules l ↔ a ∈ l := by
  rw [uniqueRules, mem_uniqueRulesAux]
  simp

theorem nodup_uniqueRulesAux (l : List Rule) :
    ∀ (seen : List Rule), (uniqueRulesAux l seen).Nodup := by
  induction l with
  | nil => intro seen; simp [uniqueRulesAux]
  | cons r rs ih =>
    intro seen
    by_cases h : r ∈ seen
    · rw [uniqueRulesAux, if_pos h]; exact ih seen
    · rw [uniqueRulesAux, if_neg h]
      refine List.nodup_cons.mpr ⟨?_, ih (r :: seen)⟩
      intro hm
      exact (mem_uniqueRulesAux.mp hm).2 (List.mem_cons_self r seen)


/-! ## Claim C4: ordering of the rewrite pass -/

/-- **C4** (confirmed).  In `adjust_ltp` the auto-derived candidate rules are
deduplicated, sorted in descending order of the number of rank separators ';'
in their `old` string, and prepended to the curated `LTP_RENAMES`; the bulk
rename applies the combined list strictly in that order, each rule as a
substring replacement over every lineage string of the table. -/
theorem c4_adjust_rules_order (cands : List Rule) (lineages : List String) :
    adjust_rules cands = sortDesc (uniqueRules cands) ++ LTP_RENAMES ∧
    List.Sorted (fun a b => sepCount b.old ≤ sepCount a.old)
      (sortDesc (uniqueRules cands)) ∧
    (sortDesc (uniqueRules cands)).Nodup ∧
    (∀ r, r ∈ sortDesc (uniqueRules cands) ↔ r ∈ cands) ∧
    bulk_rename (adjust_rules cands) lineages =
      lineages.map (apply_rules (sortDesc (uniqueRules cands) ++ LTP_RENAMES)) := by
  refine ⟨rfl, sortDesc_sorted _, ?_, ?_, ?_⟩
  · exact ((sortDesc_perm (uniqueRules cands)).nodup_iff).mpr
      (nodup_uniqueRulesAux cands [])
  · intro r
    rw [(sortDesc_perm (uniqueRules cands)).mem_iff, mem_uniqueRules]
  · exact bulk_rename_eq_map _ _

/-! ## Claim C6: idempotence of the rewrite pass -/

theorem pyReplaceFuel_of_not_contains {pat : List Char} (rep : List Char) :
    ∀ (s : List Char) (fuel : Nat), pyContainsChars pat s = false →
      pyReplaceFuel pat rep fuel s = s := by
  intro s
  induction s with
  | nil => intro fuel _; cases fuel <;> rfl
  | cons c cs ih =>
    intro fuel h
    rw [pyContainsChars, Bool.or_eq_false_iff] at h
    cases fuel with
    | zero => rfl
    | succ n =>
      rw [pyReplaceFuel, if_neg, ih n h.2]
      rintro ⟨-, hpre⟩
      rw [h.1] at hpre
      exact Bool.false_ne_true hpre

theorem renamer_of_not_contains {r : Rule} {lin : String}
    (h : pyContains r.old lin = false) : renamer r lin = lin := by
  rw [renamer, if_neg]
  rw [h]
  exact Bool.false_ne_true

theorem apply_rules_of_not_contains {rules : List Rule} {lin : String}
    (h : ∀ r ∈ rules, pyContains r.old lin = false) :
    apply_rules rules lin = lin := by
  induction rules with
  | nil => rfl
  | cons r rs ih =>
    rw [apply_rules_cons, renamer_of_not_contains (h r (List.mem_cons_self r rs))]
    exact ih (fun q hq => h q (List.mem_cons_of_mem r hq))

/-- **C6** (corrected; counterexample `c6_counterexample`).  Re-applying the
full rewrite-rule list is a no-op only on tables whose once-rewritten
lineages contain none of the rules' `old` strings; the claimed unconditional
idempotence fails on lineages where a replacement re-creates an `old`
substring (see the doubled-name typo rule). -/
theorem c6_amended_idempotent_when_stable (rules : List Rule) (lins : List String)
    (h : ∀ s ∈ bulk_rename rules lins, ∀ r ∈ rules, pyContains r.old s = false) :
    bulk_rename rules (bulk_rename rules lins) = bulk_rename rules lins := by
  rw [bulk_rename_eq_map rules (bulk_rename rules lins)]
  have : ∀ s ∈ bulk_rename rules lins, apply_rules rules s = s := by
    intro s hs
    exact apply_rules_of_not_contains (h s hs)
  calc (bulk_rename rules lins).map (apply_rules rules)
      = (bulk_rename rules lins).map id := List.map_congr_left this
    _ = bulk_rename rules lins := List.map_id _

theorem c6_amended_witness :
    bulk_rename [Rule.mk "a" "b"] (bulk_rename [Rule.mk "a" "b"] ["xyz"]) =
      bulk_rename [Rule.mk "a" "b"] ["xyz"] :=
  c6_amended_idempotent_when_stable [Rule.mk "a" "b"] ["xyz"] (by decide)

set_option maxRecDepth 40000 in
/-- **C6** counterexample: with no auto-derived rules, the applied rule list is
exactly `LTP_RENAMES`; on the table holding the single lineage
`"Bdellovibrionota;Bdellovibrionota;Bdellovibrionota"` the first pass yields
`"Bdellovibrionota;Bdellovibrionota"` (one non-overlapping replacement) and the
second pass rewrites again to `"Bdellovibrionota"`, so applying the same rule
list twice differs from applying it once. -/
theorem c6_counterexample :
    bulk_rename (adjust_rules [])
        (bulk_rename (adjust_rules [])
          ["Bdellovibrionota;Bdellovibrionota;Bdellovibrionota"]) ≠
      bulk_rename (adjust_rules [])
        ["Bdellovibrionota;Bdellovibrionota;Bdellovibrionota"] := by
  decide

/-! ## Claim C7: parse_lineage -/

/-- Pad a column list on the right with empty strings to the 7 ranks. -/
def pad7 (l : List String) : List String := l ++ List.replicate (7 - l.length) ""

theorem range_map_splitter (x : String) (k : Nat) :
    (List.range k).map (fun idx => splitter idx x) =
      ((pySplit ';' x).take k).map pyStrip ++
        List.replicate (k - (pySplit ';' x).length) "" := by
  induction k with
  | zero => simp
  | succ n ih =>
    rw [List.range_succ, List.map_append, ih, List.take_succ]
    by_cases h : n < (pySplit ';' x).length
    · have hs : splitter n x = pyStrip ((pySplit ';' x).getD n "") := by
        rw [splitter, if_neg (by omega)]
      have h1 : n + 1 - (pySplit ';' x).length = 0 := by omega
      have h0 : n - (pySplit ';' x).length = 0 := by omega
      rw [h1, h0]
      simp only [List.replicate_zero, List.append_nil, List.map_append,
        List.map_cons, List.map_nil, List.append_assoc]
      rw [List.getElem?_eq_getElem h]
      simp [hs, List.getD_eq_getElem?_getD, List.getElem?_eq_getElem h]
    · have hs : splitter n x = "" := by
        rw [splitter, if_pos (by omega)]
      have h2 : n + 1 - (pySplit ';' x).length = (n - (pySplit ';' x).length) + 1 := by
        omega
      rw [h2, List.replicate_succ', List.getElem?_eq_none (by omega)]
      simp [hs]

/-- **C7** (corrected; counterexample `c7_counterexample`).  `parse_lineage`
splits the raw string on ';', trims whitespace from each field and fills the
7 rank columns, padding missing trailing ranks with `""`; but when more
separators are present than ranks the species column receives only the 7th
field — the content beyond it is discarded entirely, not folded into the
species field. -/
theorem c7_amended_parse_lineage (raw : String) :
    parse_lineage raw = pad7 (((pySplit ';' raw).take 7).map pyStrip) ∧
    (parse_lineage raw).length = 7 := by
  constructor
  · rw [parse_lineage, range_map_splitter, pad7]
    congr 2
    rw [List.length_map, List.length_take]
    omega
  · rw [parse_lineage, List.length_map, List.length_range]

/-- **C7** counterexample: on a lineage with eight fields the species column
holds only the 7th field `"g"`; the trailing `"h"` appears in no column. -/
theorem c7_counterexample :
    parse_lineage "a;b;c;d;e;f;g;h" = ["a", "b", "c", "d", "e", "f", "g"] := rfl

/-! ## Taxonomy tables and the consistency validator -/

/-- A taxonomy table: one row of 7 rank labels per record (the parsed
`LEVELS` columns of the pandas frame). -/
abbrev Table := List (List String)

/-- Column `i` of the table. -/
def column (t : Table) (i : Nat) : List String := t.map (fun r => r.getD i "")

/-- Distinct values of a list, first occurrence first (pandas `unique` /
iteration over `groupby` keys, as a set). -/
def dedupFirstAux {α : Type} [DecidableEq α] : List α → List α → List α
  | [], _ => []
  | x :: xs, seen =>
    if x ∈ seen then dedupFirstAux xs seen else x :: dedupFirstAux xs (x :: seen)

/-- Distinct values of a list. -/
def dedupFirst {α : Type} [DecidableEq α] (l : List α) : List α := dedupFirstAux l []

theorem mem_dedupFirstAux {α : Type} [DecidableEq α] {a : α} {l : List α} :
    ∀ {seen : List α}, a ∈ dedupFirstAux l seen ↔ a ∈ l ∧ a ∉ seen := by
  induction l with
  | nil => intro seen; simp [dedupFirstAux]
  | cons r rs ih =>
    intro seen
    by_cases h : r ∈ seen
    · rw [dedupFirstAux, if_pos h, ih]
      constructor
      · rintro ⟨ha, hs⟩; exact ⟨List.mem_cons_of_mem r ha, hs⟩
      · rintro ⟨ha, hs⟩
        rcases List.mem_cons.mp ha with rfl | ha
        · exact absurd h hs
        · exact ⟨ha, hs⟩
    · rw [dedupFirstAux, if_neg h]
      constructor
      · intro hm
        rcases List.mem_cons.mp hm with rfl | hm
        · exact ⟨List.mem_cons_self a rs, h⟩
        · rcases ih.mp hm with ⟨ha, hs⟩
          exact ⟨List.mem_cons_of_mem r ha,
                 fun hsa => hs (List.mem_cons_of_mem r hsa)⟩
      · rintro ⟨ha, hs⟩
        rcases List.mem_cons.mp ha with rfl | ha
        · exact List.mem_cons_self a _
        · by_cases har : a = r
          · subst har; exact List.mem_cons_self a _
          · exact List.mem_cons_of_mem r
              (ih.mpr ⟨ha, fun hsa => by
                rcases List.mem_cons.mp hsa with h' | h'
                · exact har h'
                · exact hs h'⟩)

theorem mem_dedupFirst {α : Type} [DecidableEq α] {a : α} {l : List α} :
    a ∈ dedupFirst l ↔ a ∈ l := by
  rw [dedupFirst, mem_dedupFirstAux]
  simp

/-- `len(name) == 3 and name.endswith('__')`: a rank-prefix-only (empty) GTDB
label such as `"g__"`. -/
def isBlankGtdbLabel (s : String) : Bool :=
  match s.data with
  | [_, c1, c2] => c1 = '_' && c2 = '_'
  | _ => false

/-- The distinct parent labels (rank `idx - 1`) over the group of rows whose
label at rank `idx` is `name`: `grp[LEVELS[idx-1]].unique()`. -/
def parentLabels (t : Table) (idx : Nat) (name : String) : List String :=
  dedupFirst ((t.filter (fun r => r.getD idx "" == name)).map
    (fun r => r.getD (idx - 1) ""))

/-- The ranks checked by `check_consistent_parents`: `LEVELS[1:]`, as indices. -/
def ranksAfterDomain : List Nat := [1, 2, 3, 4, 5, 6]

/-- The GTDB half of one level of `check_consistent_parents`: every non-blank
group has exactly one distinct parent. -/
def gtdbLevelOk (t : Table) (idx : Nat) : Bool :=
  (dedupFirst (column t idx)).all
    (fun name => isBlankGtdbLabel name || (parentLabels t idx name).length == 1)

/-- The LTP half of one level of `check_consistent_parents`: every non-empty
group has exactly one distinct parent. -/
def ltpLevelOk (t : Table) (idx : Nat) : Bool :=
  (dedupFirst (column t idx)).all
    (fun name => name == "" || (parentLabels t idx name).length == 1)

/-- `check_consistent_parents`: for each rank below domain, group by label and
`raise ValueError()` — in the GTDB table and equally in the LTP table — when a
group has more than one distinct parent label. -/
def check_consistent_parents (gtdb_tax ltp_tax : Table) : Except Unit Unit :=
  if ranksAfterDomain.all
      (fun idx => gtdbLevelOk gtdb_tax idx && ltpLevelOk ltp_tax idx)
  then Except.ok () else Except.error ()

theorem gtdbLevelOk_iff {t : Table} {idx : Nat} :
    gtdbLevelOk t idx = true ↔
      ∀ name ∈ column t idx, isBlankGtdbLabel name = false →
        (parentLabels t idx name).length = 1 := by
  rw [gtdbLevelOk, List.all_eq_true]
  constructor
  · intro h name hm hb
    have h2 := h name (mem_dedupFirst.mpr hm)
    rw [Bool.or_eq_true] at h2
    rcases h2 with hb' | hl
    · rw [hb] at hb'; exact absurd hb' (by simp)
    · exact eq_of_beq hl
  · intro h name hm
    rw [Bool.or_eq_true]
    by_cases hb : isBlankGtdbLabel name = true
    · exact Or.inl hb
    · have h3 := h name (mem_dedupFirst.mp hm) (Bool.eq_false_iff.mpr hb)
      exact Or.inr (by simp [h3])

theorem ltpLevelOk_iff {t : Table} {idx : Nat} :
    ltpLevelOk t idx = true ↔
      ∀ name ∈ column t idx, name ≠ "" →
        (parentLabels t idx name).length = 1 := by
  rw [ltpLevelOk, List.all_eq_true]
  constructor
  · intro h name hm hb
    have h2 := h name (mem_dedupFirst.mpr hm)
    rw [Bool.or_eq_true] at h2
    rcases h2 with hb' | hl
    · exact absurd (eq_of_beq hb') hb
    · exact eq_of_beq hl
  · intro h name hm
    rw [Bool.or_eq_true]
    by_cases hb : name = ""
    · exact Or.inl (by simp [hb])
    · have h3 := h name (mem_dedupFirst.mp hm) hb
      exact Or.inr (by simp [h3])

/-- **C1** (corrected; counterexample `c1_counterexample`).  A
same-child-label-under-two-different-parents violation at any rank below
domain is fatal in the primary (GTDB) table **and equally fatal in the
secondary (LTP) table** — `check_consistent_parents` succeeds exactly when
both tables have a unique parent for every group, the blank-label group
(`"x__"` in GTDB, `""` in LTP) being skipped. -/
theorem c1_consistent_parents_fatal_iff (gtdb_tax ltp_tax : Table) :
    check_consistent_parents gtdb_tax ltp_tax = Except.ok () ↔
      ∀ idx ∈ ranksAfterDomain,
        (∀ name ∈ column gtdb_tax idx, isBlankGtdbLabel name = false →
          (parentLabels gtdb_tax idx name).length = 1) ∧
        (∀ name ∈ column ltp_tax idx, name ≠ "" →
          (parentLabels ltp_tax idx name).length = 1) := by
  have key : check_consistent_parents gtdb_tax ltp_tax = Except.ok () ↔
      ranksAfterDomain.all
        (fun idx => gtdbLevelOk gtdb_tax idx && ltpLevelOk ltp_tax idx) = true := by
    rw [check_consistent_parents]
    split
    next h => simp [h]
    next h => simp [h]
  rw [key, List.all_eq_true]
  refine forall_congr' (fun idx => forall_congr' (fun _ => ?_))
  rw [Bool.and_eq_true, gtdbLevelOk_iff, ltpLevelOk_iff]

/-- A consistent single-record GTDB table. -/
def gtdbOkTable : Table := [["d__A", "p__B", "c__C", "o__D", "f__E", "g__F", "s__G"]]

/-- An LTP table in which phylum `"PhyY"` appears under the two distinct
domains `"DomX"` and `"DomQ"`. -/
def ltpBadTable : Table :=
  [["DomX", "PhyY", "ClsZ", "OrdW", "FamV", "GenU", "SpeT"],
   ["DomQ", "PhyY", "ClsZ", "OrdW", "FamV", "GenU", "SpeT"]]

/-- **C1** counterexample: a same-child-two-parents violation that occurs only
in the secondary (LTP) taxonomy aborts with the same fatal error — it is not a
mere logged warning as claimed. -/
theorem c1_counterexample :
    check_consistent_parents gtdbOkTable ltpBadTable = Except.error () := rfl

/-! ## Claim C9: cross-rank label overlap check (`check_overlap`) -/

/-- Names GTDB legitimately reuses at multiple ranks (the allow-list). -/
def permissible : List String :=
  ["UBA8346", "AKS1", "JAAYUW01", "DSM-19610", "UBA10575",
   "DSM-17781", "SK-Y3", "DSM-22653", "JC228", "DSM-100275",
   "DSM-16500", "HP12", "DSM-26407", "DY22613", "UBA6429"]

/-- `set(tax[i]) - set([""])`. -/
def colSet (t : Table) (i : Nat) : List String :=
  (dedupFirst (column t i)).filter (fun x => !(x == ""))

/-- Intersection of two label sets. -/
def interS (a b : List String) : List String := a.filter (fun x => b.contains x)

/-- Is the run still alive after this step? -/
def isOk : Except Unit Unit → Bool
  | Except.ok _ => true
  | Except.error _ => false

/-- The body of `check_overlap` for one ordered pair of distinct ranks,
keeping the source's control flow: when the GTDB overlap is inside the
allow-list the iteration `continue`s — skipping the LTP comparison of the
same pair — and otherwise the (necessarily non-empty) GTDB overlap raises
before the LTP comparison is reached. -/
def pairCheck (gtdb_tax ltp_tax : Table) (i j : Nat) : Except Unit Unit :=
  let og := interS (colSet gtdb_tax i) (colSet gtdb_tax j)
  if og.all (fun x => permissible.contains x) then Except.ok ()
  else if og.length ≠ 0 then Except.error ()
  else
    let ol := interS (colSet ltp_tax i) (colSet ltp_tax j)
    if ol.all (fun x => permissible.contains x) then Except.ok ()
    else if ol.length ≠ 0 then Except.error ()
    else Except.ok ()

/-- All ordered pairs of distinct rank indices, in loop order. -/
def rankPairs : List (Nat × Nat) :=
  (List.range 7).foldr
    (fun i acc =>
      ((List.range 7).foldr
        (fun j acc2 => if i = j then acc2 else (i, j) :: acc2) []) ++ acc) []

/-- `check_overlap`: scan every ordered pair of distinct ranks and raise on a
non-permissible label shared between two ranks of the same taxonomy. -/
def check_overlap (gtdb_tax ltp_tax : Table) : Except Unit Unit :=
  if rankPairs.all (fun p => isOk (pairCheck gtdb_tax ltp_tax p.1 p.2))
  then Except.ok () else Except.error ()

/-- The LTP branch of `pairCheck` is unreachable: if the GTDB overlap is
permissible the pair is skipped, otherwise the overlap is non-empty and the
pair raises — either way the LTP table is never consulted. -/
theorem pairCheck_ignores_ltp (gtdb_tax ltp_tax ltp_tax' : Table) (i j : Nat) :
    pairCheck gtdb_tax ltp_tax i j = pairCheck gtdb_tax ltp_tax' i j := by
  rw [pairCheck, pairCheck]
  by_cases h : (interS (colSet gtdb_tax i) (colSet gtdb_tax j)).all
      (fun x => permissible.contains x) = true
  · rw [if_pos h, if_pos h]
  · rw [if_neg h, if_neg h, if_pos, if_pos]
    · intro he
      rw [List.length_eq_zero.mp he] at h
      exact h rfl
    · intro he
      rw [List.length_eq_zero.mp he] at h
      exact h rfl

/-- `check_overlap` never reads the secondary (LTP) table at all. -/
theorem check_overlap_ignores_ltp (gtdb_tax ltp_tax ltp_tax' : Table) :
    check_overlap gtdb_tax ltp_tax = check_overlap gtdb_tax ltp_tax' := by
  rw [check_overlap, check_overlap]
  have : ∀ p : Nat × Nat, pairCheck gtdb_tax ltp_tax p.1 p.2 =
      pairCheck gtdb_tax ltp_tax' p.1 p.2 :=
    fun p => pairCheck_ignores_ltp gtdb_tax ltp_tax ltp_tax' p.1 p.2
  simp only [this]

/-- A GTDB table with pairwise distinct labels across ranks. -/
def gtdbDistinctTable : Table := [["dA", "pA", "cA", "oA", "fA", "gA", "sA"]]

/-- An LTP table reusing the label `"Q"` at both phylum and class. -/
def ltpOverlapTable : Table := [["A", "Q", "Q", "O", "F", "G", "S"]]

/-- **C9** (code bug): the label `"Q"` is shared between two ranks of the
secondary taxonomy and is not in the allow-list, yet `check_overlap` returns
without raising — the `continue` taken when the GTDB overlap is permissible
(here: empty) skips the LTP comparison for every pair, so the documented LTP
collision check is dead code. -/
theorem c9_overlap_ltp_not_checked :
    check_overlap gtdbDistinctTable ltpOverlapTable = Except.ok () := rfl

/-! ## Claim C8: species-label invariant pass (`check_species_labels`) -/

/-- The fields of an LTP record touched by `check_species_labels`. -/
structure TaxRow where
  id : String
  genus : String
  species : String
deriving DecidableEq, Repr

/-- `check_species_labels` as written: it iterates `ltp_tax.iterrows()` and
assigns `row['species'] = ""` on rows with a species but no genus.  pandas
`iterrows` yields a fresh copy of each row, so the assignment mutates only
that copy (built here and discarded) and the table itself is returned
unchanged. -/
def check_species_labels (ltp_tax : List TaxRow) : List TaxRow :=
  let _rowCopies := ltp_tax.map (fun row =>
    if row.species ≠ "" && row.genus == "" then TaxRow.mk row.id row.genus ""
    else row)
  ltp_tax

/-- **C8** (code bug): a record carrying the species label `"SpeX"` with an
empty genus — the exact violation the pass is meant to erase — survives
`check_species_labels` untouched, because the assignment lands on the
`iterrows` copy of the row rather than on the table. -/
theorem c8_species_label_not_enforced :
    check_species_labels [TaxRow.mk "rec1" "" "SpeX"] =
      [TaxRow.mk "rec1" "" "SpeX"] := rfl

/-! ## Claims C3 and C10: auto-derived rewrite rules -/

theorem auto_candidates_go_error {lookup : Nat → String → Option String}
    {parts : List String} :
    ∀ (ps : List (Nat × String)) (acc : List Rule),
      (∃ p ∈ ps, emit_at lookup parts p.1 p.2 = Except.error ()) →
      auto_candidates_go lookup parts ps acc = Except.error () := by
  intro ps
  induction ps with
  | nil =>
    rintro acc ⟨p, hp, -⟩
    cases hp
  | cons q qs ih =>
    rintro acc ⟨p, hp, he⟩
    rcases List.mem_cons.mp hp with rfl | hp
    · simp [auto_candidates_go, he]
    · rw [auto_candidates_go]
      cases hq : emit_at lookup parts q.1 q.2 with
      | error e => cases e; rfl
      | ok v =>
        cases v with
        | none => exact ih _ ⟨p, hp, he⟩
        | some r => exact ih _ ⟨p, hp, he⟩

/-- **C3** (corrected; counterexample `c3_counterexample`).  The sanity check
`if 'Bacteria' in current and 'Archaea' in gtdb: raise ValueError()` makes a
candidate rewrite fatal exactly when the anchored `old` side contains
`"Bacteria"` and the anchored `new` side contains `"Archaea"` (and the two
differ); a fatal candidate anywhere in a lineage aborts the derivation.  The
opposite domain cross-over (Archaea → Bacteria) is *not* fatal. -/
theorem c3_crossover_fatal_one_direction
    (lookup : Nat → String → Option String) (lineage : String) :
    (∀ (parts : List String) (lvl : Nat) (name : String),
      emit_at lookup parts lvl name = Except.error () ↔
        ∃ g, lookup lvl name = some g ∧
          anchored lvl g ≠ anchored lvl (joinSemi (parts.take (lvl + 1))) ∧
          pyContains "Bacteria" (anchored lvl (joinSemi (parts.take (lvl + 1)))) = true ∧
          pyContains "Archaea" (anchored lvl g) = true) ∧
    ((∃ p ∈ (pySplit ';' lineage).enum,
        emit_at lookup (pySplit ';' lineage) p.1 p.2 = Except.error ()) →
      auto_candidates lookup lineage = Except.error ()) := by
  constructor
  · intro parts lvl name
    rcases hl : lookup lvl name with _ | g
    · simp only [emit_at, hl]
      constructor
      · intro h; cases h
      · rintro ⟨g, hg, -⟩; cases hg
    · simp only [emit_at, hl]
      by_cases h1 : anchored lvl g = anchored lvl (joinSemi (parts.take (lvl + 1)))
      · rw [if_pos h1]
        constructor
        · intro h; cases h
        · rintro ⟨g', hg', hne, -⟩
          cases hg'
          exact absurd h1 hne
      · rw [if_neg h1]
        by_cases h2 : (pyContains "Bacteria" (anchored lvl (joinSemi (parts.take (lvl + 1)))) &&
            pyContains "Archaea" (anchored lvl g)) = true
        · rw [if_pos h2]
          have h2' : pyContains "Bacteria"
                (anchored lvl (joinSemi (parts.take (lvl + 1)))) = true ∧
              pyContains "Archaea" (anchored lvl g) = true := by simpa using h2
          exact ⟨fun _ => ⟨g, rfl, h1, h2'.1, h2'.2⟩, fun _ => rfl⟩
        · rw [if_neg h2]
          constructor
          · intro h; cases h
          · rintro ⟨g', hg', -, hb, ha⟩
            cases hg'
            exact absurd (by simp [hb, ha] : _) h2
  · intro h
    rcases h with ⟨p, hp, he⟩
    exact auto_candidates_go_error _ _ ⟨p, List.mem_reverse.mpr hp, he⟩

/-- Lookup that sends the domain name `"Bacteria"` to `"Archaea"`. -/
def crossLookup : Nat → String → Option String :=
  fun lvl name => if lvl = 0 && name == "Bacteria" then some "Archaea" else none

theorem c3_witness : auto_candidates crossLookup "Bacteria" = Except.error () :=
  (c3_crossover_fatal_one_direction crossLookup "Bacteria").2
    ⟨(0, "Bacteria"), by decide, rfl⟩

/-- Lookup that sends the domain name `"Archaea"` to `"Bacteria"`. -/
def reverseLookup : Nat → String → Option String :=
  fun lvl name => if lvl = 0 && name == "Archaea" then some "Bacteria" else none

/-- **C3** counterexample: a domain cross-over in the opposite direction —
`old` in Archaea, `new` in Bacteria — does not abort: the candidate rule is
emitted. -/
theorem c3_counterexample :
    auto_candidates reverseLookup "Archaea" =
      Except.ok [Rule.mk "Archaea;" "Bacteria;"] := rfl

theorem getD_drop_char (s : List Char) (i k : Nat) (d : Char) :
    (s.drop i).getD k d = s.getD (i + k) d := by
  rw [List.getD_eq_getElem?_getD, List.getD_eq_getElem?_getD, List.getElem?_drop]

/-- A pattern that ends in the rank separator matches only occurrences whose
final character is ';': the rank name replaced by an anchored rule is always
followed by the separator, never extended into a longer name. -/
theorem anchored_match_ends_semi {o : String} (c : String) (hend : o = c ++ ";")
    (s : List Char) (i : Nat) (hpre : o.data.isPrefixOf (s.drop i)) :
    s.getD (i + o.length - 1) 'A' = ';' := by
  subst hend
  rcases List.isPrefixOf_iff_prefix.mp hpre with ⟨t, ht⟩
  have hdata : (c ++ ";").data = c.data ++ [';'] := by
    rw [String.data_append]
  have hclen : c.length = c.data.length := rfl
  have hsemi : (";" : String).length = 1 := rfl
  have hlen1 : (c ++ ";").length = c.length + 1 := by
    rw [String.length_append, hsemi]
  have hsub : i + (c ++ ";").length - 1 = i + c.length := by omega
  rw [hsub, ← getD_drop_char, ← ht, hdata, List.append_assoc,
    List.getD_eq_getElem?_getD, List.getElem?_append_right (by omega)]
  rw [hclen, Nat.sub_self]
  simp

/-- **C10** (confirmed).  A candidate rule emitted at a rank above species
(level < 6) has both `old` and `new` suffixed with the rank separator ';'
(`current += ';'` / `gtdb += ';'`), so the rule can only replace a rank name
followed by a separator — never a proper prefix of a longer name; a candidate
emitted at the species level (level 6 and beyond) is stored without the
suffix. -/
theorem c10_rules_anchored_above_species
    (lookup : Nat → String → Option String) (parts : List String)
    (lvl : Nat) (name : String) (r : Rule)
    (h : emit_at lookup parts lvl name = Except.ok (some r)) :
    (lvl < 6 →
      r.old = joinSemi (parts.take (lvl + 1)) ++ ";" ∧
      (∃ g, lookup lvl name = some g ∧ r.new = g ++ ";") ∧
      (∀ (s : List Char) (i : Nat), r.old.data.isPrefixOf (s.drop i) →
        s.getD (i + r.old.length - 1) 'A' = ';')) ∧
    (6 ≤ lvl →
      r.old = joinSemi (parts.take (lvl + 1)) ∧
      ∃ g, lookup lvl name = some g ∧ r.new = g) := by
  rcases hl : lookup lvl name with _ | g
  · simp [emit_at, hl] at h
  · simp only [emit_at, hl] at h
    by_cases h1 : anchored lvl g = anchored lvl (joinSemi (parts.take (lvl + 1)))
    · rw [if_pos h1] at h
      simp at h
    · rw [if_neg h1] at h
      by_cases h2 : (pyContains "Bacteria" (anchored lvl (joinSemi (parts.take (lvl + 1)))) &&
          pyContains "Archaea" (anchored lvl g)) = true
      · rw [if_pos h2] at h
        simp at h
      · rw [if_neg h2] at h
        have hr : Rule.mk (anchored lvl (joinSemi (parts.take (lvl + 1))))
            (anchored lvl g) = r := Option.some.inj (Except.ok.inj h)
        subst hr
        constructor
        · intro hlt
          have hanch : ∀ x : String, anchored lvl x = x ++ ";" :=
            fun x => by rw [anchored, if_pos hlt]
          refine ⟨hanch _, ⟨g, rfl, hanch _⟩, ?_⟩
          intro s i hpre
          exact anchored_match_ends_semi (joinSemi (parts.take (lvl + 1)))
            (hanch _) s i hpre
        · intro hge
          have hanch : ∀ x : String, anchored lvl x = x :=
            fun x => by rw [anchored, if_neg (by omega)]
          exact ⟨hanch _, ⟨g, rfl, hanch _⟩⟩

/-- Lookup sending the pair (level 1, `"G"`) to `"H"`. -/
def wLookup : Nat → String → Option String :=
  fun lvl name => if lvl = 1 && name == "G" then some "H" else none

theorem c10_witness :
    ((Rule.mk "A;G;" "H;").old = joinSemi (["A", "G"].take (1 + 1)) ++ ";" ∧
      (∃ g, wLookup 1 "G" = some g ∧ (Rule.mk "A;G;" "H;").new = g ++ ";") ∧
      (∀ (s : List Char) (i : Nat),
        (Rule.mk "A;G;" "H;").old.data.isPrefixOf (s.drop i) →
          s.getD (i + (Rule.mk "A;G;" "H;").old.length - 1) 'A' = ';')) :=
  (c10_rules_anchored_above_species wLookup ["A", "G"] 1 "G"
    (Rule.mk "A;G;" "H;") rfl).1 (by omega)

/-! ## Claim C2: polyphyly detection (`get_polyphyletic`) -/

/-- `[a-zA-Z0-9-]`: a character of the base-name body in the polyphyly
regexes. -/
def isBodyChar (c : Char) : Bool := c.isAlphanum || c = '-'

/-- `[dpcofg]`: the rank prefixes accepted by `POLY_GENERAL`. -/
def isGeneralRankChar (c : Char) : Bool :=
  c = 'd' || c = 'p' || c = 'c' || c = 'o' || c = 'f' || c = 'g'

/-- Split at the first underscore; the polyphyly marker can only begin at the
first '_' because the body character class excludes '_'. -/
def breakMarker : List Char → List Char × Option (List Char)
  | [] => ([], none)
  | ch :: cs =>
    if ch = '_' then ([], some cs)
    else
      let r := breakMarker cs
      (ch :: r.1, r.2)

def validBody (l : List Char) : Bool := !l.isEmpty && l.all isBodyChar

def validMarker : Option (List Char) → Bool
  | none => true
  | some m => !m.isEmpty && m.all (fun c => c.isUpper)

/-- `POLY_GENERAL.match(name)` for `^([dpcofg]__[a-zA-Z0-9-]+)(_[A-Z]+)?$`,
returning the two groups on success. -/
def polyGeneralMatch (name : String) : Option (String × Option String) :=
  match name.data with
  | c :: '_' :: '_' :: rest =>
    if isGeneralRankChar c then
      let bm := breakMarker rest
      if validBody bm.1 && validMarker bm.2 then
        some (⟨c :: '_' :: '_' :: bm.1⟩, bm.2.map (fun m => ⟨'_' :: m⟩))
      else none
    else none
  | _ => none

/-- Split at the first space (the literal ' ' between the binomial halves). -/
def breakSpace : List Char → Option (List Char × List Char)
  | [] => none
  | ch :: cs =>
    if ch = ' ' then some ([], cs)
    else (breakSpace cs).map (fun r => (ch :: r.1, r.2))

/-- `POLY_SPECIES.match(name)` for
`^(s__[a-zA-Z0-9-]+)(_[A-Z]+)? ([a-zA-Z0-9-]+)(_[A-Z]+)?$`,
returning the four groups on success. -/
def polySpeciesMatch (name : String) :
    Option (String × Option String × String × Option String) :=
  match name.data with
  | 's' :: '_' :: '_' :: rest =>
    match breakSpace rest with
    | none => none
    | some lr =>
      let gm := breakMarker lr.1
      let sm := breakMarker lr.2
      if validBody gm.1 && validMarker gm.2 && validBody sm.1 && validMarker sm.2 then
        some (⟨'s' :: '_' :: '_' :: gm.1⟩, gm.2.map (fun m => ⟨'_' :: m⟩),
              ⟨sm.1⟩, sm.2.map (fun m => ⟨'_' :: m⟩))
      else none
  | _ => none

/-- `label.split('__', 1)[1]`: strip the two-character rank prefix.  (For the
labels produced by the matchers the body never contains `"__"`, so dropping
the first three characters is exact.) -/
def dropRankPfx (s : String) : String :=
  match s.data with
  | _ :: '_' :: '_' :: rest => ⟨rest⟩
  | _ => s

/-- The `POLY_GENERAL` loop body of `get_polyphyletic` over the distinct
names of one rank column: skip blank labels, `raise` on a non-matching name,
and for a name with a marker add the stripped base once. -/
def polyGeneralLevelAux : List String → List String → Except Unit (List String)
  | [], acc => Except.ok acc
  | name :: rest, acc =>
    if isBlankGtdbLabel name then polyGeneralLevelAux rest acc
    else
      match polyGeneralMatch name with
      | none => Except.error ()
      | some (_, none) => polyGeneralLevelAux rest acc
      | some (lbl, some _) =>
        polyGeneralLevelAux rest
          (if dropRankPfx lbl ∈ acc then acc else acc ++ [dropRankPfx lbl])

def polyGeneralLevel (names : List String) : Except Unit (List String) :=
  polyGeneralLevelAux names []

/-- The species loop of `get_polyphyletic`: the marker may sit on either half
of the binomial; the unmarked two-word binomial is recorded. -/
def polySpeciesLevelAux : List String → List String → Except Unit (List String)
  | [], acc => Except.ok acc
  | name :: rest, acc =>
    if isBlankGtdbLabel name then polySpeciesLevelAux rest acc
    else
      match polySpeciesMatch name with
      | none => Except.error ()
      | some q =>
        if q.2.1.isSome || q.2.2.2.isSome then
          polySpeciesLevelAux rest
            (if dropRankPfx q.1 ++ " " ++ q.2.2.1 ∈ acc then acc
             else acc ++ [dropRankPfx q.1 ++ " " ++ q.2.2.1])
        else polySpeciesLevelAux rest acc

def polySpeciesLevel (names : List String) : Except Unit (List String) :=
  polySpeciesLevelAux names []

/-- `get_polyphyletic`: the per-rank ambiguous label sets, domain first,
species last. -/
def get_polyphyletic (t : Table) : Except Unit (List (List String)) := do
  let d0 ← polyGeneralLevel (dedupFirst (column t 0))
  let d1 ← polyGeneralLevel (dedupFirst (column t 1))
  let d2 ← polyGeneralLevel (dedupFirst (column t 2))
  let d3 ← polyGeneralLevel (dedupFirst (column t 3))
  let d4 ← polyGeneralLevel (dedupFirst (column t 4))
  let d5 ← polyGeneralLevel (dedupFirst (column t 5))
  let d6 ← polySpeciesLevel (dedupFirst (column t 6))
  pure [d0, d1, d2, d3, d4, d5, d6]

theorem mem_polyGeneralLevelAux {x : String} :
    ∀ (names acc res : List String),
      polyGeneralLevelAux names acc = Except.ok res →
      (x ∈ res ↔ x ∈ acc ∨ ∃ name ∈ names, isBlankGtdbLabel name = false ∧
        ∃ lbl mk, polyGeneralMatch name = some (lbl, some mk) ∧
          x = dropRankPfx lbl) := by
  intro names
  induction names with
  | nil =>
    intro acc res h
    have hr : acc = res := Except.ok.inj h
    subst hr
    simp
  | cons name rest ih =>
    intro acc res h
    by_cases hb : isBlankGtdbLabel name = true
    · rw [polyGeneralLevelAux, if_pos hb] at h
      rw [ih _ _ h]
      constructor
      · rintro (ha | ⟨n, hn, hnb, w⟩)
        · exact Or.inl ha
        · exact Or.inr ⟨n, List.mem_cons_of_mem name hn, hnb, w⟩
      · rintro (ha | ⟨n, hn, hnb, w⟩)
        · exact Or.inl ha
        · rcases List.mem_cons.mp hn with rfl | hn
          · rw [hb] at hnb; cases hnb
          · exact Or.inr ⟨n, hn, hnb, w⟩
    · have hbf : isBlankGtdbLabel name = false := Bool.eq_false_iff.mpr hb
      rw [polyGeneralLevelAux, if_neg hb] at h
      rcases hm : polyGeneralMatch name with _ | ⟨lbl, _ | mk⟩
      all_goals rw [hm] at h
      · cases h
      · rw [ih _ _ h]
        constructor
        · rintro (ha | ⟨n, hn, hnb, w⟩)
          · exact Or.inl ha
          · exact Or.inr ⟨n, List.mem_cons_of_mem name hn, hnb, w⟩
        · rintro (ha | ⟨n, hn, hnb, lbl', mk', hm', hx⟩)
          · exact Or.inl ha
          · rcases List.mem_cons.mp hn with rfl | hn
            · rw [hm] at hm'; cases hm'
            · exact Or.inr ⟨n, hn, hnb, lbl', mk', hm', hx⟩
      · rw [ih _ _ h]
        have hacc : ∀ y : String,
            (y ∈ (if dropRankPfx lbl ∈ acc then acc else acc ++ [dropRankPfx lbl])) ↔
              (y ∈ acc ∨ y = dropRankPfx lbl) := by
          intro y
          by_cases hd : dropRankPfx lbl ∈ acc
          · rw [if_pos hd]
            constructor
            · exact Or.inl
            · rintro (hy | rfl)
              · exact hy
              · exact hd
          · rw [if_neg hd]
            simp
        rw [hacc]
        constructor
        · rintro ((ha | rfl) | ⟨n, hn, hnb, w⟩)
          · exact Or.inl ha
          · exact Or.inr ⟨name, List.mem_cons_self name rest, hbf,
              lbl, mk, hm, rfl⟩
          · exact Or.inr ⟨n, List.mem_cons_of_mem name hn, hnb, w⟩
        · rintro (ha | ⟨n, hn, hnb, lbl', mk', hm', hx⟩)
          · exact Or.inl (Or.inl ha)
          · rcases List.mem_cons.mp hn with rfl | hn
            · rw [hm] at hm'
              have h1 : lbl = lbl' ∧ some mk = some mk' := by
                have := Option.some.inj hm'
                exact ⟨congrArg Prod.fst this, congrArg Prod.snd this⟩
              rcases h1 with ⟨rfl, -⟩
              exact Or.inl (Or.inr hx)
            · exact Or.inr ⟨n, hn, hnb, lbl', mk', hm', hx⟩

theorem get_polyphyletic_ok_level {t : Table} {res : List (List String)}
    (h : get_polyphyletic t = Except.ok res) {lvl : Nat} (hlvl : lvl < 6) :
    polyGeneralLevel (dedupFirst (column t lvl)) = Except.ok (res.getD lvl []) := by
  rw [get_polyphyletic] at h
  cases h0 : polyGeneralLevel (dedupFirst (column t 0)) with
  | error e => rw [h0] at h; cases h
  | ok d0 =>
  rw [h0] at h
  cases h1 : polyGeneralLevel (dedupFirst (column t 1)) with
  | error e => rw [h1] at h; cases h
  | ok d1 =>
  rw [h1] at h
  cases h2 : polyGeneralLevel (dedupFirst (column t 2)) with
  | error e => rw [h2] at h; cases h
  | ok d2 =>
  rw [h2] at h
  cases h3 : polyGeneralLevel (dedupFirst (column t 3)) with
  | error e => rw [h3] at h; cases h
  | ok d3 =>
  rw [h3] at h
  cases h4 : polyGeneralLevel (dedupFirst (column t 4)) with
  | error e => rw [h4] at h; cases h
  | ok d4 =>
  rw [h4] at h
  cases h5 : polyGeneralLevel (dedupFirst (column t 5)) with
  | error e => rw [h5] at h; cases h
  | ok d5 =>
  rw [h5] at h
  cases h6 : polySpeciesLevel (dedupFirst (column t 6)) with
  | error e => rw [h6] at h; cases h
  | ok d6 =>
  rw [h6] at h
  have hres : [d0, d1, d2, d3, d4, d5, d6] = res := Except.ok.inj h
  subst hres
  interval_cases lvl
  · exact h0
  · exact h1
  · exact h2
  · exact h3
  · exact h4
  · exact h5

/-- **C2** (corrected; counterexample `c2_counterexample`).  At a rank above
species, a string belongs to the rank's ambiguous set exactly when it is the
rank-prefix- and marker-stripped base of *some* name at that rank carrying a
non-empty polyphyly marker: there is no grouping or counting of variants — a
single marked variant suffices, bare variants are irrelevant, and what is
recorded is the one stripped base string, not each marked variant. -/
theorem c2_poly_base_iff_marked_variant (t : Table) (res : List (List String))
    (h : get_polyphyletic t = Except.ok res) (lvl : Nat) (hlvl : lvl < 6)
    (x : String) :
    x ∈ res.getD lvl [] ↔
      ∃ name ∈ column t lvl, isBlankGtdbLabel name = false ∧
        ∃ lbl mk, polyGeneralMatch name = some (lbl, some mk) ∧
          x = dropRankPfx lbl := by
  have hlev := get_polyphyletic_ok_level h hlvl
  rw [polyGeneralLevel] at hlev
  rw [mem_polyGeneralLevelAux _ _ _ hlev]
  constructor
  · rintro (hx | ⟨name, hn, w⟩)
    · cases hx
    · exact ⟨name, mem_dedupFirst.mp hn, w⟩
  · rintro ⟨name, hn, w⟩
    exact Or.inr ⟨name, mem_dedupFirst.mpr hn, w⟩

/-- A table whose phylum column holds the single marked label `"p__Z_B"`. -/
def polyTable : Table :=
  [["d__X", "p__Z_B", "c__X", "o__X", "f__X", "g__X", "s__X X"]]

/-- **C2** counterexample: the phylum group of base `"Z"` contains exactly one
(marked) variant and no bare form, yet the phylum ambiguous set is `{"Z"}` —
not empty as the more-than-one-marked-variant reading requires — and it
records the stripped base, not the marked variant `"Z_B"`. -/
theorem c2_counterexample :
    get_polyphyletic polyTable = Except.ok [[], ["Z"], [], [], [], [], []] := rfl

theorem c2_witness :
    ("Z" ∈ ([[], ["Z"], [], [], [], [], []] : List (List String)).getD 1 [] ↔
      ∃ name ∈ column polyTable 1, isBlankGtdbLabel name = false ∧
        ∃ lbl mk, polyGeneralMatch name = some (lbl, some mk) ∧
          "Z" = dropRankPfx lbl) :=
  c2_poly_base_iff_marked_variant polyTable [[], ["Z"], [], [], [], [], []]
    rfl 1 (by omega) "Z"

/-! ## Claim C5: grafting (`graft_from_other`) -/

mutual
/-- A consensus-tree node (skbio `TreeNode` carrying the `keepable` flag):
a tip (record identifier) or an internal node with ordered children. -/
inductive TaxTree where
  | tip (name : String) (keepable : Bool) : TaxTree
  | node (name : String) (keepable : Bool) (children : TaxForest) : TaxTree
/-- An ordered list of sibling subtrees. -/
inductive TaxForest where
  | nil : TaxForest
  | cons (t : TaxTree) (ts : TaxForest) : TaxForest
end

def keepableOf : TaxTree → Bool
  | .tip _ k => k
  | .node _ k _ => k

def anyKeepable : TaxForest → Bool
  | .nil => false
  | .cons t ts => keepableOf t || anyKeepable ts

mutual
/-- `desc.keepable = any([c.keepable for c in desc.children])` applied in
postorder over the detached copy; tips keep their flag. -/
def recomputeKeepable : TaxTree → TaxTree
  | .tip n k => .tip n k
  | .node n _ cs =>
    .node n (anyKeepable (recomputeKeepableF cs)) (recomputeKeepableF cs)
def recomputeKeepableF : TaxForest → TaxForest
  | .nil => .nil
  | .cons t ts => .cons (recomputeKeepable t) (recomputeKeepableF ts)
end

mutual
/-- Remove every non-keepable descendant.  After `recomputeKeepable` an
internal node is keepable iff some child is, so the source's removal loop
over the materialized postorder list deletes exactly the maximal
non-keepable subtrees — a filter of the children at every level. -/
def pruneTree : TaxTree → TaxTree
  | .tip n k => .tip n k
  | .node n k cs => .node n k (pruneF cs)
def pruneF : TaxForest → TaxForest
  | .nil => .nil
  | .cons t ts =>
    if keepableOf t then .cons (pruneTree t) (pruneF ts) else pruneF ts
end

def childrenOf : TaxTree → TaxForest
  | .tip _ _ => .nil
  | .node _ _ cs => cs

def isNilF : TaxForest → Bool
  | .nil => true
  | .cons _ _ => false

mutual
/-- The postorder body of `graft_from_other` for one secondary-tree node:
children are processed first; then, when the node's name is a key of the
primary lookup, the node is detached from the secondary tree, its copy gets
`keepable` recomputed bottom-up and non-keepable descendants pruned, and a
non-empty surviving children list is recorded for `gtdb_node.extend`.  An
unmatched internal node stays, with its processed children. -/
def graftWalk (lookup : List String) :
    TaxTree → Option TaxTree × List (String × TaxForest)
  | .tip n k => (some (.tip n k), [])
  | .node n k cs =>
    let r := graftWalkF lookup cs
    if n ∈ lookup then
      let pruned := pruneTree (recomputeKeepable (.node n k r.1))
      if isNilF (childrenOf pruned) then (none, r.2)
      else (none, r.2 ++ [(n, childrenOf pruned)])
    else (some (.node n k r.1), r.2)
def graftWalkF (lookup : List String) :
    TaxForest → TaxForest × List (String × TaxForest)
  | .nil => (.nil, [])
  | .cons t ts =>
    let rt := graftWalk lookup t
    let rts := graftWalkF lookup ts
    (match rt.1 with
     | none => rts.1
     | some t2 => .cons t2 rts.1, rt.2 ++ rts.2)
end

/-- `graft_from_other(other, lookup)`: postorder over the secondary tree,
root excluded; yields the mutated secondary tree together with, in visit
order, the children grafted onto each matched primary node. -/
def graft_from_other (other : TaxTree) (lookup : List String) :
    TaxTree × List (String × TaxForest) :=
  match other with
  | .node n k cs =>
    let r := graftWalkF lookup cs
    (.node n k r.1, r.2)
  | t => (t, [])

mutual
def hasNodeName (nm : String) : TaxTree → Bool
  | .tip n _ => n == nm
  | .node n _ cs => n == nm || hasNodeNameF nm cs
def hasNodeNameF (nm : String) : TaxForest → Bool
  | .nil => false
  | .cons t ts => hasNodeName nm t || hasNodeNameF nm ts
end

def appendF : TaxForest → TaxForest → TaxForest
  | .nil, b => b
  | .cons t ts, b => .cons t (appendF ts b)

/-- `gtdb_node.extend(node.children)` on the matched primary node. -/
def extendNode (t : TaxTree) (extra : TaxForest) : TaxTree :=
  match t with
  | .node n k cs => .node n k (appendF cs extra)
  | t => t

/-- The secondary tree of the grafting scenario: an internal node named by
the path key `"f1;g1"` with the two keepable tip children `a` and `b`. -/
def secondaryTree : TaxTree :=
  .node "root" false
    (.cons (.node "f1;g1" false
      (.cons (.tip "a" true) (.cons (.tip "b" true) .nil))) .nil)

/-- The primary-tree node the lookup maps `"f1;g1"` to (childless here). -/
def primaryNode : TaxTree := .node "p-f1;g1" true .nil

/-- **C5** (confirmed).  With the primary lookup containing the key
`"f1;g1"` and the secondary tree holding an internal node of that name with
two keepable tip children `a` and `b`: after `graft_from_other` the matched
primary node's children are exactly `{a, b}` (the grafted children list),
and the `"f1;g1"` subtree is gone from the secondary tree. -/
theorem c5_graft_scenario :
    graft_from_other secondaryTree ["f1;g1"] =
      (TaxTree.node "root" false TaxForest.nil,
       [("f1;g1",
         TaxForest.cons (.tip "a" true) (.cons (.tip "b" true) .nil))]) ∧
    hasNodeName "f1;g1" (graft_from_other secondaryTree ["f1;g1"]).1 = false ∧
    extendNode primaryNode
        (TaxForest.cons (.tip "a" true) (.cons (.tip "b" true) .nil)) =
      TaxTree.node "p-f1;g1" true
        (TaxForest.cons (.tip "a" true) (.cons (.tip "b" true) .nil)) :=
  ⟨rfl, rfl, rfl⟩
end GG2
